import Mathlib

/-!
Verification development for the `acker` reply tool (src/main.rs).

The Rust source is shallowly embedded below.  External collaborators
(the git configuration loader, the RFC 5322 parsing engine, path
interpolation, filesystem probing and the lettre mail types) are
represented by explicit parameters or by definitions marked
"Modelled from the spec".
-/

def MAX_LINES : Nat := 5

/-- An identity: optional display name plus a validated address
(lettre's Mailbox, already validated by the external crate). -/
structure Mailbox where
  name : Option String
  email : String
deriving DecidableEq

/-- The four CLI boolean flags of the Rust Args struct. -/
structure Args where
  acked : Bool
  dry : Bool
  reviewed : Bool
  tested : Bool
deriving DecidableEq

/-- The git configuration keys the program reads; each is optional,
exactly as gix-config reports them. -/
structure GitCfg where
  userName : Option String
  userEmail : Option String
  sendmailCmd : Option String
  smtpServer : Option String
deriving DecidableEq

/-- The structured view of the inbound message produced by the external
mail-parser engine: each field is optional and the Rust code unwraps it. -/
structure ParsedMessage where
  fromAddrs : List Mailbox
  toAddrs : Option (List Mailbox)
  ccAddrs : Option (List Mailbox)
  subject : Option String
  dateRfc822 : Option String
  messageId : Option String
  textBody : Option String
deriving DecidableEq

inductive SendmailTransport where
  | command (path : String)
  | defaultCmd
deriving DecidableEq

/-- Modelled from the spec: the unimplemented non-local relay branch of
get_mail_transport is a todo panic in the source; spec section 9 directs
that it be modelled as UnsupportedConfigurationError. -/
inductive TransportError where
  | unsupportedConfiguration
deriving DecidableEq

def get_user_name (cfg : GitCfg) : Option String :=
  cfg.userName

def get_user_addr (cfg : GitCfg) : Option String :=
  cfg.userEmail

/-- get_user_mail: unwraps user.email (failure = none), keeps the optional name. -/
def get_user_mail (cfg : GitCfg) : Option Mailbox :=
  (get_user_addr cfg).map fun mail => Mailbox.mk (get_user_name cfg) mail

/-- get_mail_transport: sendemail.sendmailcmd (interpolated) takes precedence;
else sendemail.smtpserver is used as a command when it names an existing path,
and otherwise the run fails (todo panic, modelled per the spec as
UnsupportedConfigurationError); else the platform default sendmail. -/
def get_mail_transport (pathExists : String → Bool) (interpolate : String → String)
    (cfg : GitCfg) : Except TransportError SendmailTransport :=
  match cfg.sendmailCmd with
  | some p => Except.ok (SendmailTransport.command (interpolate p))
  | none =>
    match cfg.smtpServer with
    | some s =>
      if pathExists s then Except.ok (SendmailTransport.command s)
      else Except.error TransportError.unsupportedConfiguration
    | none => Except.ok SendmailTransport.defaultCmd

/-- get_mail_from: the first mailbox of the From header; the Rust code
unwraps From and removes index 0, panicking when absent (= none here). -/
def get_mail_from (msg : ParsedMessage) : Option Mailbox :=
  msg.fromAddrs.head?

/-- Split a character sequence at every newline; one segment per
newline-delimited stretch, the final segment being the tail after the
last newline (possibly empty). -/
def splitNl : List Char → List (List Char)
  | [] => [[]]
  | c :: cs =>
    if c = '\n' then [] :: splitNl cs
    else
      match splitNl cs with
      | seg :: rest => (c :: seg) :: rest
      | [] => [[c]]

/-- Rust str::lines strips a carriage return only when it directly precedes
the newline that ends the segment. -/
def stripCRchars (l : List Char) : List Char :=
  match l.reverse with
  | '\r' :: t => t.reverse
  | _ => l

/-- Embedding of Rust str::lines: split on newline, drop a final empty
segment (trailing-newline and empty-string cases), strip a carriage
return from every segment that was terminated by a newline. -/
def rustLines (s : String) : List String :=
  match (splitNl s.data).reverse with
  | [] => []
  | lastSeg :: revInit =>
    ((revInit.reverse.map stripCRchars).map String.mk) ++
      (if lastSeg = [] then [] else [String.mk lastSeg])

/-- The quoting loop of get_base_reply: at each line, first the index bound
is checked (emitting the two truncation lines), then the signature-cut
marker, then the line is quoted. -/
def quoteLines : List String → Nat → List String
  | [], _ => []
  | line :: rest, index =>
    if MAX_LINES ≤ index then ["> ", "> [ ... ]"]
    else if line = "---" then []
    else ("> " ++ line) :: quoteLines rest (index + 1)

/-- get_base_reply: attribution line followed by the quoted (possibly
truncated) body; none when author, date or a text body is missing. -/
def get_base_reply (msg : ParsedMessage) : Option String :=
  match get_mail_from msg, msg.dateRfc822, msg.textBody with
  | some author, some date, some body =>
    some ("On " ++ date ++ ", " ++ (author.name.getD author.email) ++ " wrote:\n" ++
      String.join ((quoteLines (rustLines body) 0).map (fun l => l ++ "\n")))
  | _, _, _ => none

/-- ASCII case folding of a string, as a character list. -/
def lowerChars (s : String) : List Char :=
  s.data.map Char.toLower

/-- The comparison key of an identity: lowercased address first,
lowercased optional display name second. -/
def mKey (m : Mailbox) : List Char × Option (List Char) :=
  (lowerChars m.email, m.name.map lowerChars)

def optStrLe : Option (List Char) → Option (List Char) → Prop
  | none, _ => True
  | some _, none => False
  | some x, some y => x ≤ y

instance : DecidableRel optStrLe := fun a b => by
  cases a <;> cases b <;> simp only [optStrLe] <;> infer_instance

def keyLe (p q : List Char × Option (List Char)) : Prop :=
  p.1 < q.1 ∨ (p.1 = q.1 ∧ optStrLe p.2 q.2)

instance : DecidableRel keyLe := fun p q => by
  unfold keyLe; infer_instance

/-- Modelled from the spec: the total order over Identity used by the
recipient sort (address as primary key, display name as secondary key,
case-insensitive); the concrete comparison lives in the external lettre
crate's Ord for Mailbox. -/
def mailboxLe (a b : Mailbox) : Prop :=
  keyLe (mKey a) (mKey b)

instance : DecidableRel mailboxLe := fun a b => by
  unfold mailboxLe; infer_instance

/-- Modelled from the spec: identity equality used by dedup and by the
author filter (case-insensitive on both components), the equivalence of
the order above; the concrete comparison lives in the external lettre
crate's PartialEq for Mailbox. -/
def mailboxBeq (a b : Mailbox) : Bool :=
  decide (mKey a = mKey b)

def mKeyEq (a b : Mailbox) : Prop :=
  mKey a = mKey b

/-- Helper of rustDedup: a is the last kept element. -/
def rustDedupAux (eqb : α → α → Bool) (a : α) : List α → List α
  | [] => [a]
  | b :: l => if eqb a b then rustDedupAux eqb a l else a :: rustDedupAux eqb b l

/-- Embedding of Rust Vec::dedup: drop every element equal to the last kept one. -/
def rustDedup (eqb : α → α → Bool) : List α → List α
  | [] => []
  | a :: l => rustDedupAux eqb a l

/-- get_mail_cc_list: user, then To, then Cc; stable sort by the identity
order; dedup of adjacent equal identities; drop entries equal to the author. -/
def get_mail_cc_list (cfg : GitCfg) (msg : ParsedMessage) : Option (List Mailbox) :=
  match get_user_mail cfg, get_mail_from msg with
  | some user, some author =>
    some ((rustDedup mailboxBeq
        (List.insertionSort mailboxLe
          (user :: (msg.toAddrs.getD [] ++ msg.ccAddrs.getD [])))).filter
      (fun u => !(mailboxBeq u author)))
  | _, _ => none

/-- Modelled from the spec: the rendering of an Identity used by trailers
and headers; implemented by the external lettre crate's Display for
Mailbox: display name followed by the angle-bracketed address, or the
bare address when there is no display name. -/
def mailboxDisplay (m : Mailbox) : String :=
  match m.name with
  | some n => n ++ " <" ++ m.email ++ ">"
  | none => m.email

/-- The signature name: first space-separated token of the display name,
else the full address. -/
def signatureName (user : Mailbox) : String :=
  (user.name.map fun n => String.mk (n.data.takeWhile fun c => c != ' ')).getD user.email

/-- The trailer lines main appends, in source order. -/
def trailerLines (args : Args) (user : Mailbox) : List String :=
  (if args.acked then ["Acked-by: " ++ mailboxDisplay user] else []) ++
  (if args.reviewed then ["Reviewed-by: " ++ mailboxDisplay user] else []) ++
  (if args.tested then ["Tested-by: " ++ mailboxDisplay user] else [])

/-- The reply text main builds: base reply, blank separator, the three
optional trailers in fixed order, blank line, Thanks!, signature name. -/
def composeReplyText (args : Args) (user : Mailbox) (base : String) : String :=
  base ++ "\n" ++
  (if args.acked then "Acked-by: " ++ mailboxDisplay user ++ "\n" else "") ++
  (if args.reviewed then "Reviewed-by: " ++ mailboxDisplay user ++ "\n" else "") ++
  (if args.tested then "Tested-by: " ++ mailboxDisplay user ++ "\n" else "") ++
  "\nThanks!\n" ++ signatureName user ++ "\n"

/-- Modelled from the spec: serialization of the assembled outgoing message
(lettre Message::formatted): Date, From = self, To = original author,
Subject, In-Reply-To and References = angle-bracketed original id,
one Cc header per recipient, blank line, body. -/
def formatMessage (now : String) (user author : Mailbox) (subject msgId : String)
    (cc : List Mailbox) (body : String) : String :=
  "Date: " ++ now ++ "\r\n" ++
  "From: " ++ mailboxDisplay user ++ "\r\n" ++
  "To: " ++ mailboxDisplay author ++ "\r\n" ++
  "Subject: " ++ subject ++ "\r\n" ++
  "In-Reply-To: " ++ msgId ++ "\r\n" ++
  "References: " ++ msgId ++ "\r\n" ++
  String.join (cc.map fun c => "Cc: " ++ mailboxDisplay c ++ "\r\n") ++
  "\r\n" ++ body

/-- Everything main computes before the dry-run branch, as one function of
the inputs; none embeds any unwrap panic along the way. -/
def composeFull (args : Args) (cfg : GitCfg) (msg : ParsedMessage) (now : String) :
    Option String :=
  match get_mail_from msg, get_user_mail cfg, get_base_reply msg,
      msg.messageId, msg.subject, get_mail_cc_list cfg msg with
  | some author, some user, some base, some mid, some subj, some ccl =>
    some (formatMessage now user author ("Re: " ++ subj) ("<" ++ mid ++ ">") ccl
      (composeReplyText args user base))
  | _, _, _, _, _, _ => none

/-- Observable outcome of one run: a panic, the dry-run print, or a
message handed to the resolved transport. -/
inductive MainResult where
  | fail
  | printed (out : String)
  | sent (t : SendmailTransport) (out : String)
deriving DecidableEq

def MainResult.isSent : MainResult → Bool
  | MainResult.sent _ _ => true
  | _ => false

/-- The whole of main as a function of the CLI flags, the configuration,
the filesystem probe, path interpolation, the send time and the parsed
inbound message. -/
def mainModel (args : Args) (cfg : GitCfg) (pathExists : String → Bool)
    (interpolate : String → String) (now : String) (msg : ParsedMessage) : MainResult :=
  match composeFull args cfg msg now with
  | none => MainResult.fail
  | some eml =>
    if args.dry then MainResult.printed eml
    else
      match get_mail_transport pathExists interpolate cfg with
      | Except.ok t => MainResult.sent t eml
      | Except.error _ => MainResult.fail

/-- A raw mailbox entry as mail-parser yields it (mail_parser::Addr):
both the display name and the address are optional. -/
structure Addr where
  name : Option String
  address : Option String
deriving DecidableEq

/-- mailbox_from_addr: the display name is kept optionally; the address is
unwrapped (absence panics = none) and then parsed by the external lettre
Address::from_str, whose unwrap-on-failure is the addrValid test here. -/
def mailbox_from_addr (addrValid : String → Bool) (a : Addr) : Option Mailbox :=
  match a.address with
  | none => none
  | some s => if addrValid s then some (Mailbox.mk a.name s) else none

/-- mailbox_from_address: converts every entry of an address list before
any of them is consumed; a single bad entry panics the run (= none). -/
def mailbox_from_address (addrValid : String → Bool) : List Addr → Option (List Mailbox)
  | [] => some []
  | a :: l =>
    match mailbox_from_addr addrValid a, mailbox_from_address addrValid l with
    | some m, some ml => some (m :: ml)
    | _, _ => none

/-- get_mail_from on the raw view: convert the whole From list, then take
index 0 (remove(0) on an empty vector also panics = none). -/
def get_mail_from_raw (addrValid : String → Bool) (fromList : List Addr) : Option Mailbox :=
  (mailbox_from_address addrValid fromList).bind List.head?

/-- Conversion of an optional To or Cc header: an absent header is fine,
a present one is converted entry by entry. -/
def convertOptList (addrValid : String → Bool) :
    Option (List Addr) → Option (Option (List Mailbox))
  | none => some none
  | some l => (mailbox_from_address addrValid l).map some

/-- The raw view of the inbound message, before the per-entry mailbox
conversions that the Rust helpers run on every header they touch. -/
structure RawParsedMessage where
  fromAddrs : List Addr
  toAddrs : Option (List Addr)
  ccAddrs : Option (List Addr)
  subject : Option String
  dateRfc822 : Option String
  messageId : Option String
  textBody : Option String
deriving DecidableEq

/-- The whole of main on the raw message view: every run converts the full
From list (main.rs get_mail_from) and any present To and Cc lists
(get_mail_cc_list); a conversion panic anywhere aborts the run, and
otherwise the run proceeds on the validated view. -/
def mainModelRaw (args : Args) (cfg : GitCfg) (pathExists : String → Bool)
    (interpolate : String → String) (addrValid : String → Bool) (now : String)
    (raw : RawParsedMessage) : MainResult :=
  match mailbox_from_address addrValid raw.fromAddrs,
      convertOptList addrValid raw.toAddrs, convertOptList addrValid raw.ccAddrs with
  | some fl, some tl, some cl =>
    mainModel args cfg pathExists interpolate now
      ⟨fl, tl, cl, raw.subject, raw.dateRfc822, raw.messageId, raw.textBody⟩
  | _, _, _ => MainResult.fail

/-! ### Order and equality lemmas -/

theorem optStrLe_refl (o : Option (List Char)) : optStrLe o o := by
  cases o <;> simp [optStrLe]

theorem optStrLe_trans {a b c : Option (List Char)} (h1 : optStrLe a b) (h2 : optStrLe b c) :
    optStrLe a c := by
  cases a <;> cases b <;> cases c <;> simp_all [optStrLe]
  exact le_trans h1 h2

theorem optStrLe_total (a b : Option (List Char)) : optStrLe a b ∨ optStrLe b a := by
  cases a <;> cases b <;> simp [optStrLe]
  exact le_total _ _

theorem optStrLe_antisymm {a b : Option (List Char)} (h1 : optStrLe a b) (h2 : optStrLe b a) :
    a = b := by
  cases a <;> cases b <;> simp_all [optStrLe]
  exact le_antisymm h1 h2

theorem keyLe_refl (p : List Char × Option (List Char)) : keyLe p p :=
  Or.inr ⟨rfl, optStrLe_refl p.2⟩

theorem keyLe_trans {p q s : List Char × Option (List Char)} (h1 : keyLe p q) (h2 : keyLe q s) :
    keyLe p s := by
  rcases h1 with h1 | ⟨e1, n1⟩
  · rcases h2 with h2 | ⟨e2, n2⟩
    · exact Or.inl (lt_trans h1 h2)
    · exact Or.inl (e2 ▸ h1)
  · rcases h2 with h2 | ⟨e2, n2⟩
    · exact Or.inl (e1 ▸ h2)
    · exact Or.inr ⟨e1.trans e2, optStrLe_trans n1 n2⟩

theorem keyLe_total (p q : List Char × Option (List Char)) : keyLe p q ∨ keyLe q p := by
  rcases lt_trichotomy p.1 q.1 with h | h | h
  · exact Or.inl (Or.inl h)
  · rcases optStrLe_total p.2 q.2 with hn | hn
    · exact Or.inl (Or.inr ⟨h, hn⟩)
    · exact Or.inr (Or.inr ⟨h.symm, hn⟩)
  · exact Or.inr (Or.inl h)

theorem keyLe_antisymm {p q : List Char × Option (List Char)} (h1 : keyLe p q) (h2 : keyLe q p) :
    p = q := by
  rcases h1 with h1 | ⟨e1, n1⟩
  · rcases h2 with h2 | ⟨e2, n2⟩
    · exact absurd (lt_trans h1 h2) (lt_irrefl _)
    · exact absurd h1 (e2 ▸ lt_irrefl _)
  · rcases h2 with h2 | ⟨e2, n2⟩
    · exact absurd h2 (e1 ▸ lt_irrefl _)
    · exact Prod.ext e1 (optStrLe_antisymm n1 n2)

instance : IsTotal Mailbox mailboxLe :=
  ⟨fun a b => keyLe_total (mKey a) (mKey b)⟩

instance : IsTrans Mailbox mailboxLe :=
  ⟨fun _ _ _ h1 h2 => keyLe_trans h1 h2⟩

instance : IsAntisymm (List Char × Option (List Char)) keyLe :=
  ⟨fun _ _ h1 h2 => keyLe_antisymm h1 h2⟩

instance : IsTotal (List Char × Option (List Char)) keyLe :=
  ⟨keyLe_total⟩

instance : IsTrans (List Char × Option (List Char)) keyLe :=
  ⟨fun _ _ _ h1 h2 => keyLe_trans h1 h2⟩

theorem mailboxBeq_iff {a b : Mailbox} : mailboxBeq a b = true ↔ mKey a = mKey b := by
  simp [mailboxBeq]

theorem mailboxLe_of_mKeyEq {a b : Mailbox} (h : mKey a = mKey b) : mailboxLe a b := by
  unfold mailboxLe
  exact h ▸ keyLe_refl (mKey a)

/-! ### Dedup lemmas -/

theorem rustDedupAux_sublist (eqb : α → α → Bool) (a : α) :
    ∀ l : List α, List.Sublist (rustDedupAux eqb a l) (a :: l)
  | [] => List.Sublist.refl [a]
  | b :: l => by
    rw [rustDedupAux]
    by_cases h : eqb a b
    · simp only [h, if_pos]
      exact (rustDedupAux_sublist eqb a l).trans
        ((List.sublist_cons_self b l).cons₂ a)
    · simp only [h, if_neg]
      exact (rustDedupAux_sublist eqb b l).cons₂ a

theorem rustDedup_sublist (eqb : α → α → Bool) :
    ∀ l : List α, List.Sublist (rustDedup eqb l) l
  | [] => List.Sublist.refl []
  | a :: l => rustDedupAux_sublist eqb a l

theorem sorted_rustDedupAux (a : Mailbox) (l : List Mailbox)
    (h : List.Sorted mailboxLe (a :: l)) :
    List.Sorted (fun x y => mailboxLe x y ∧ ¬ mKeyEq x y) (rustDedupAux mailboxBeq a l) := by
  induction l generalizing a with
  | nil => simp [rustDedupAux]
  | cons b l ih =>
    rw [rustDedupAux]
    by_cases hab : mailboxBeq a b = true
    · rw [if_pos hab]
      apply ih
      rw [List.sorted_cons] at h ⊢
      exact ⟨fun z hz => h.1 z (List.mem_cons_of_mem b hz), h.2.tail⟩
    · rw [if_neg hab]
      rw [List.sorted_cons]
      refine ⟨?_, ih b h.tail⟩
      intro x hx
      have hxmem : x ∈ b :: l :=
        (rustDedupAux_sublist mailboxBeq b l).subset hx
      have hax : mailboxLe a x := List.rel_of_sorted_cons h x hxmem
      refine ⟨hax, fun hkey => ?_⟩
      rcases List.mem_cons.mp hxmem with rfl | hxl
      · exact hab (mailboxBeq_iff.mpr hkey)
      · have hbx : mailboxLe b x := List.rel_of_sorted_cons h.tail x hxl
        have hxa : mailboxLe x a := mailboxLe_of_mKeyEq hkey.symm
        have hba : mailboxLe b a := keyLe_trans hbx hxa
        have hab' : mailboxLe a b := (List.sorted_cons.mp h).1 b (List.mem_cons_self b l)
        exact hab (mailboxBeq_iff.mpr (keyLe_antisymm hab' hba))

theorem sorted_rustDedup (l : List Mailbox) (h : List.Sorted mailboxLe l) :
    List.Sorted (fun x y => mailboxLe x y ∧ ¬ mKeyEq x y) (rustDedup mailboxBeq l) := by
  cases l with
  | nil => simp [rustDedup]
  | cons a l => exact sorted_rustDedupAux a l h

/-! ### Quoting lemmas -/

theorem quoteLines_trunc : ∀ (lines : List String) (idx : Nat), idx ≤ 5 →
    5 - idx < lines.length → (∀ l ∈ lines.take (5 - idx), l ≠ "---") →
    quoteLines lines idx =
      (lines.take (5 - idx)).map (fun l => "> " ++ l) ++ ["> ", "> [ ... ]"] := by
  intro lines
  induction lines with
  | nil => intro idx _ hlen _; simp at hlen
  | cons line rest ih =>
    intro idx hidx hlen hmark
    by_cases h5 : MAX_LINES ≤ idx
    · have hz : 5 - idx = 0 := by simp [MAX_LINES] at h5; omega
      simp [quoteLines, h5, hz]
    · have hlt : idx < 5 := by simpa [MAX_LINES] using h5
      have hsucc : 5 - idx = (5 - (idx + 1)) + 1 := by omega
      have hnl : line ≠ "---" := by
        apply hmark
        rw [hsucc, List.take_succ_cons]
        exact List.mem_cons_self _ _
      rw [quoteLines, if_neg h5, if_neg hnl, hsucc, List.take_succ_cons]
      rw [List.map_cons, List.cons_append]
      congr 1
      apply ih (idx + 1) (by omega)
      · simp at hlen; omega
      · intro l hl
        apply hmark
        rw [hsucc, List.take_succ_cons]
        exact List.mem_cons_of_mem _ hl

theorem quoteLines_short : ∀ (lines : List String) (idx : Nat),
    lines.length ≤ 5 - idx → (∀ l ∈ lines, l ≠ "---") →
    quoteLines lines idx = lines.map (fun l => "> " ++ l) := by
  intro lines
  induction lines with
  | nil => intro idx _ _; simp [quoteLines]
  | cons line rest ih =>
    intro idx hlen hmark
    have hlt : idx < 5 := by simp at hlen; omega
    have h5 : ¬ MAX_LINES ≤ idx := by simp [MAX_LINES]; omega
    rw [quoteLines, if_neg h5, if_neg (hmark line (List.mem_cons_self _ _))]
    rw [List.map_cons]
    congr 1
    exact ih (idx + 1) (by simp at hlen ⊢; omega)
      (fun l hl => hmark l (List.mem_cons_of_mem _ hl))

theorem quoteLines_marker : ∀ (pre : List String) (post : List String) (idx : Nat),
    (∀ l ∈ pre, l ≠ "---") → pre.length < 5 - idx →
    quoteLines (pre ++ "---" :: post) idx = pre.map (fun l => "> " ++ l) := by
  intro pre
  induction pre with
  | nil =>
    intro post idx _ hlen
    have h5 : ¬ MAX_LINES ≤ idx := by simp [MAX_LINES]; omega
    simp [quoteLines, h5]
  | cons line pre ih =>
    intro post idx hmark hlen
    have h5 : ¬ MAX_LINES ≤ idx := by simp [MAX_LINES]; simp at hlen; omega
    rw [List.cons_append, quoteLines, if_neg h5,
      if_neg (hmark line (List.mem_cons_self _ _)), List.map_cons]
    congr 1
    exact ih post (idx + 1) (fun l hl => hmark l (List.mem_cons_of_mem _ hl))
      (by simp at hlen ⊢; omega)

theorem exists_first_mem {a : α} [DecidableEq α] :
    ∀ {l : List α}, a ∈ l → ∃ pre post, l = pre ++ a :: post ∧ a ∉ pre := by
  intro l
  induction l with
  | nil => intro h; simp at h
  | cons c l ih =>
    intro h
    by_cases hc : c = a
    · exact ⟨[], l, by rw [hc, List.nil_append], by simp⟩
    · rcases ih (by rcases List.mem_cons.mp h with h | h; exact absurd h.symm hc; exact h) with
        ⟨pre, post, hdec, hpre⟩
      exact ⟨c :: pre, post, by rw [List.cons_append, hdec], by
        simp only [List.mem_cons]
        rintro (rfl | hm)
        · exact hc rfl
        · exact hpre hm⟩

/-! ### Commuting the recipient pipeline with the comparison key -/

theorem map_rustDedupAux (f : α → β) (ea : α → α → Bool) (eb : β → β → Bool)
    (hcomp : ∀ x y, ea x y = eb (f x) (f y)) :
    ∀ (l : List α) (a : α), (rustDedupAux ea a l).map f = rustDedupAux eb (f a) (l.map f) := by
  intro l
  induction l with
  | nil => intro a; simp [rustDedupAux]
  | cons b l ih =>
    intro a
    rw [List.map_cons, rustDedupAux, rustDedupAux, ← hcomp]
    by_cases h : ea a b = true
    · rw [if_pos h, if_pos h, ih]
    · rw [if_neg h, if_neg h, List.map_cons, ih]

theorem map_rustDedup (f : α → β) (ea : α → α → Bool) (eb : β → β → Bool)
    (hcomp : ∀ x y, ea x y = eb (f x) (f y)) :
    ∀ l : List α, (rustDedup ea l).map f = rustDedup eb (l.map f) := by
  intro l
  cases l with
  | nil => simp [rustDedup]
  | cons a l => exact map_rustDedupAux f ea eb hcomp l a

theorem map_filter_mkey (author : Mailbox) :
    ∀ L : List Mailbox,
      (L.filter fun u => !(mailboxBeq u author)).map mKey =
        (L.map mKey).filter (fun k => !(decide (k = mKey author))) := by
  intro L
  induction L with
  | nil => simp
  | cons a L ih =>
    rw [List.map_cons, List.filter_cons, List.filter_cons]
    by_cases h : mKey a = mKey author
    · rw [if_neg (by simp [mailboxBeq, h]), if_neg (by simp [h]), ih]
    · rw [if_pos (by simp [mailboxBeq, h]), if_pos (by simp [h]), List.map_cons, ih]

/-- Unpacking of a successful get_mail_cc_list run. -/
theorem get_mail_cc_list_some (cfg : GitCfg) (msg : ParsedMessage) (l : List Mailbox)
    (hl : get_mail_cc_list cfg msg = some l) :
    ∃ user author, get_user_mail cfg = some user ∧ get_mail_from msg = some author ∧
      l = (rustDedup mailboxBeq (List.insertionSort mailboxLe
            (user :: (msg.toAddrs.getD [] ++ msg.ccAddrs.getD [])))).filter
          (fun u => !(mailboxBeq u author)) := by
  unfold get_mail_cc_list at hl
  cases hu : get_user_mail cfg with
  | none => rw [hu] at hl; simp at hl
  | some user =>
    cases ha : get_mail_from msg with
    | none => rw [hu, ha] at hl; simp at hl
    | some author =>
      rw [hu, ha] at hl
      simp only [Option.some.injEq] at hl
      exact ⟨user, author, rfl, rfl, hl.symm⟩

/-- The recipient list is sorted by the identity order. -/
theorem cc_list_sorted_helper (cfg : GitCfg) (msg : ParsedMessage) (l : List Mailbox)
    (hl : get_mail_cc_list cfg msg = some l) : List.Sorted mailboxLe l := by
  rcases get_mail_cc_list_some cfg msg l hl with ⟨user, author, _, _, rfl⟩
  have hs := List.sorted_insertionSort mailboxLe
    (user :: (msg.toAddrs.getD [] ++ msg.ccAddrs.getD []))
  exact hs.sublist ((List.filter_sublist _).trans (rustDedup_sublist mailboxBeq _))

/-- No two entries of the recipient list share a comparison key. -/
theorem cc_list_pairwise_helper (cfg : GitCfg) (msg : ParsedMessage) (l : List Mailbox)
    (hl : get_mail_cc_list cfg msg = some l) :
    l.Pairwise (fun a b => ¬ mKeyEq a b) := by
  rcases get_mail_cc_list_some cfg msg l hl with ⟨user, author, _, _, rfl⟩
  have hs := List.sorted_insertionSort mailboxLe
    (user :: (msg.toAddrs.getD [] ++ msg.ccAddrs.getD []))
  have hd := sorted_rustDedup _ hs
  exact (hd.imp fun h => h.2).sublist (List.filter_sublist _)

/-- The key sequence of the recipient list does not depend on the arrival
order of the To and Cc entries. -/
theorem cc_list_map_key_helper (cfg : GitCfg) (msg msg2 : ParsedMessage)
    (l l2 : List Mailbox) (hfrom : get_mail_from msg = get_mail_from msg2)
    (hperm : (msg.toAddrs.getD [] ++ msg.ccAddrs.getD []).Perm
      (msg2.toAddrs.getD [] ++ msg2.ccAddrs.getD []))
    (h1 : get_mail_cc_list cfg msg = some l)
    (h2 : get_mail_cc_list cfg msg2 = some l2) :
    l.map mKey = l2.map mKey := by
  rcases get_mail_cc_list_some cfg msg l h1 with ⟨user, author, hu, ha, rfl⟩
  rcases get_mail_cc_list_some cfg msg2 l2 h2 with ⟨user2, author2, hu2, ha2, rfl⟩
  rw [hu] at hu2
  rw [← hfrom, ha] at ha2
  have huser : user = user2 := Option.some_inj.mp hu2
  have hauthor : author = author2 := Option.some_inj.mp ha2
  subst huser hauthor
  have hsorteq :
      (List.insertionSort mailboxLe
          (user :: (msg.toAddrs.getD [] ++ msg.ccAddrs.getD []))).map mKey =
        (List.insertionSort mailboxLe
          (user :: (msg2.toAddrs.getD [] ++ msg2.ccAddrs.getD []))).map mKey := by
    apply List.eq_of_perm_of_sorted (r := keyLe)
    · refine ((List.perm_insertionSort mailboxLe _).map mKey).trans
        (List.Perm.trans ?_ ((List.perm_insertionSort mailboxLe _).map mKey).symm)
      simpa using (hperm.map mKey).cons (mKey user)
    · exact List.Pairwise.map _ (fun a b h => h) (List.sorted_insertionSort mailboxLe _)
    · exact List.Pairwise.map _ (fun a b h => h) (List.sorted_insertionSort mailboxLe _)
  rw [map_filter_mkey, map_filter_mkey,
    map_rustDedup mKey mailboxBeq (fun p q => decide (p = q)) (fun _ _ => rfl),
    map_rustDedup mKey mailboxBeq (fun p q => decide (p = q)) (fun _ _ => rfl),
    hsorteq]

/-! ### Claim theorems -/

set_option maxRecDepth 40000 in
/-- C1 (counterexample): for a first text body whose 6th line is exactly
"---", only 5 lines exist before the marker, yet get_base_reply emits the
truncation suffix after the 5th quoted line, because the index bound is
checked before the signature-cut check; the claimed iff fails here. -/
theorem c1_counterexample :
    get_base_reply ⟨[⟨none, "a@x.com"⟩], none, none, none, some "D", none,
        some "l1\nl2\nl3\nl4\nl5\n---"⟩ =
      some "On D, a@x.com wrote:\n> l1\n> l2\n> l3\n> l4\n> l5\n> \n> [ ... ]\n" ∧
    ((rustLines "l1\nl2\nl3\nl4\nl5\n---").takeWhile (fun l => l != "---")).length = 5 :=
  ⟨by decide, by decide⟩

/-- C1 (amended): the truncation suffix ("> " then "> [ ... ]") is emitted,
after exactly the first 5 quoted lines, if and only if the body has more
than 5 lines and no line among the first 5 equals "---"; in particular a
body of more than 5 lines with no "---" marker at all quotes exactly its
first 5 lines followed by the truncation suffix. -/
theorem c1_truncation_iff (lines : List String) :
    (quoteLines lines 0 =
        (lines.take 5).map (fun l => "> " ++ l) ++ ["> ", "> [ ... ]"] ↔
      5 < lines.length ∧ "---" ∉ lines.take 5) ∧
    (5 < lines.length → "---" ∉ lines →
      quoteLines lines 0 =
        (lines.take 5).map (fun l => "> " ++ l) ++ ["> ", "> [ ... ]"]) := by
  have htr : 5 < lines.length → "---" ∉ lines.take 5 →
      quoteLines lines 0 = (lines.take 5).map (fun l => "> " ++ l) ++ ["> ", "> [ ... ]"] := by
    intro h5 hm
    exact quoteLines_trunc lines 0 (by omega) (by simpa using h5)
      (fun l hl he => hm (he ▸ hl))
  constructor
  · constructor
    · intro heq
      by_contra hcon
      rcases Decidable.em (5 < lines.length) with h5 | h5
      · have hm : "---" ∈ lines.take 5 := by
          by_contra hm
          exact hcon ⟨h5, hm⟩
        have hmem : "---" ∈ lines := (List.take_subset 5 lines) hm
        rcases exists_first_mem hmem with ⟨pre, post, hdec, hpre⟩
        subst hdec
        have hplen : pre.length < 5 := by
          by_contra hge
          push_neg at hge
          rw [List.take_append_of_le_length hge] at hm
          exact hpre ((List.take_subset 5 pre) hm)
        rw [quoteLines_marker pre post 0 (fun l hl he => hpre (he ▸ hl)) (by omega)] at heq
        have hlen := congrArg List.length heq
        simp [List.length_take] at hlen
        omega
      · have h5' : lines.length ≤ 5 := by omega
        by_cases hmem : "---" ∈ lines
        · rcases exists_first_mem hmem with ⟨pre, post, hdec, hpre⟩
          subst hdec
          have hplen : pre.length < 5 := by simp at h5'; omega
          rw [quoteLines_marker pre post 0 (fun l hl he => hpre (he ▸ hl)) (by omega)] at heq
          have hlen := congrArg List.length heq
          simp [List.length_take] at hlen
          omega
        · rw [quoteLines_short lines 0 (by omega) (fun l hl he => hmem (he ▸ hl))] at heq
          have hlen := congrArg List.length heq
          simp [List.length_take] at hlen
          omega
    · rintro ⟨h5, hm⟩
      exact htr h5 hm
  · intro h5 hm
    exact htr h5 (fun h => hm ((List.take_subset 5 lines) h))

/-- C1 (amended, witness): a concrete 7-line body with no marker. -/
theorem c1_truncation_iff_witness :
    quoteLines ["a", "b", "c", "d", "e", "f", "g"] 0 =
      ((["a", "b", "c", "d", "e", "f", "g"].take 5).map (fun l => "> " ++ l)) ++
        ["> ", "> [ ... ]"] :=
  (c1_truncation_iff ["a", "b", "c", "d", "e", "f", "g"]).2 (by decide) (by decide)

/-- C2: when no sendmail command is configured, a configured relay value
that is not an existing local path makes transport resolution fail with
UnsupportedConfigurationError instead of any network delivery. -/
theorem c2_relay_unsupported (pathExists : String → Bool) (interpolate : String → String)
    (cfg : GitCfg) (s : String) (hcmd : cfg.sendmailCmd = none)
    (hs : cfg.smtpServer = some s) (hp : pathExists s = false) :
    get_mail_transport pathExists interpolate cfg =
      Except.error TransportError.unsupportedConfiguration := by
  simp [get_mail_transport, hcmd, hs, hp]

/-- C2 (witness). -/
theorem c2_relay_unsupported_witness :
    get_mail_transport (fun _ => false) (fun p => p)
        ⟨none, none, none, some "smtp.example.com"⟩ =
      Except.error TransportError.unsupportedConfiguration :=
  c2_relay_unsupported _ _ _ "smtp.example.com" rfl rfl rfl

set_option maxRecDepth 40000 in
/-- C3 (counterexample): two identities with the same address but distinct
display names both survive sort plus dedup, so the produced recipient
list contains two distinct entries whose addresses are equal under
case-insensitive comparison. -/
theorem c3_counterexample :
    get_mail_cc_list ⟨some "U", some "u@x.com", none, none⟩
        ⟨[⟨some "A", "a@x.com"⟩], some [⟨some "B", "b@x.com"⟩],
          some [⟨some "Bob", "b@x.com"⟩], some "s", some "D", some "id", some "b"⟩ =
      some [⟨some "B", "b@x.com"⟩, ⟨some "Bob", "b@x.com"⟩, ⟨some "U", "u@x.com"⟩] ∧
    lowerChars (Mailbox.mk (some "B") "b@x.com").email =
      lowerChars (Mailbox.mk (some "Bob") "b@x.com").email ∧
    (Mailbox.mk (some "B") "b@x.com") ≠ (Mailbox.mk (some "Bob") "b@x.com") :=
  ⟨by decide, by decide, by decide⟩

/-- C3 (amended): the recipient list contains no duplicate identities under
case-insensitive comparison of the whole identity, address and display
name together (address alone does not suffice, see the counterexample). -/
theorem c3_no_duplicates (cfg : GitCfg) (msg : ParsedMessage) (l : List Mailbox)
    (hl : get_mail_cc_list cfg msg = some l) :
    l.Pairwise (fun a b => ¬ mKeyEq a b) :=
  cc_list_pairwise_helper cfg msg l hl

set_option maxRecDepth 40000 in
/-- C3 (amended, witness). -/
theorem c3_no_duplicates_witness :
    ([⟨some "B", "b@x.com"⟩, ⟨some "Bob", "b@x.com"⟩,
        (⟨some "U", "u@x.com"⟩ : Mailbox)] : List Mailbox).Pairwise
      (fun a b => ¬ mKeyEq a b) :=
  c3_no_duplicates ⟨some "U", some "u@x.com", none, none⟩
    ⟨[⟨some "A", "a@x.com"⟩], some [⟨some "B", "b@x.com"⟩],
      some [⟨some "Bob", "b@x.com"⟩], some "s", some "D", some "id", some "b"⟩
    _ (by decide)

/-- C4: the recipient list is ordered by the total order over identities
(address primary, display name secondary, case-insensitive), and its key
sequence does not depend on the To/Cc arrival order. -/
theorem c4_canonical_order (cfg : GitCfg) (f : Mailbox) (r : List Mailbox)
    (tos ccs tos2 ccs2 : Option (List Mailbox)) (subj date mid body : Option String)
    (l l2 : List Mailbox)
    (hperm : (tos.getD [] ++ ccs.getD []).Perm (tos2.getD [] ++ ccs2.getD []))
    (h1 : get_mail_cc_list cfg ⟨f :: r, tos, ccs, subj, date, mid, body⟩ = some l)
    (h2 : get_mail_cc_list cfg ⟨f :: r, tos2, ccs2, subj, date, mid, body⟩ = some l2) :
    List.Sorted mailboxLe l ∧ l.map mKey = l2.map mKey := by
  refine ⟨cc_list_sorted_helper _ _ _ h1, ?_⟩
  exact cc_list_map_key_helper cfg ⟨f :: r, tos, ccs, subj, date, mid, body⟩
    ⟨f :: r, tos2, ccs2, subj, date, mid, body⟩ l l2 rfl (by simpa using hperm) h1 h2

set_option maxRecDepth 40000 in
/-- C4 (witness): swapping the To and Cc entries leaves the same sorted
recipient list. -/
theorem c4_canonical_order_witness :
    List.Sorted mailboxLe
      ([⟨some "B", "b@x.com"⟩, ⟨some "C", "c@x.com"⟩,
        (⟨some "U", "u@x.com"⟩ : Mailbox)] : List Mailbox) ∧
    ([⟨some "B", "b@x.com"⟩, ⟨some "C", "c@x.com"⟩,
        (⟨some "U", "u@x.com"⟩ : Mailbox)] : List Mailbox).map mKey =
      ([⟨some "B", "b@x.com"⟩, ⟨some "C", "c@x.com"⟩,
        (⟨some "U", "u@x.com"⟩ : Mailbox)] : List Mailbox).map mKey :=
  c4_canonical_order ⟨some "U", some "u@x.com", none, none⟩ ⟨some "A", "a@x.com"⟩ []
    (some [⟨some "B", "b@x.com"⟩]) (some [⟨some "C", "c@x.com"⟩])
    (some [⟨some "C", "c@x.com"⟩]) (some [⟨some "B", "b@x.com"⟩])
    (some "s") (some "D") (some "id") (some "b") _ _
    (by simpa using
      List.Perm.swap (⟨some "C", "c@x.com"⟩ : Mailbox) ⟨some "B", "b@x.com"⟩ [])
    (by decide) (by decide)

/-- C5: the recipient list never contains the author's identity, even when
the author also appears in To or Cc. -/
theorem c5_author_excluded (cfg : GitCfg) (msg : ParsedMessage) (author : Mailbox)
    (l : List Mailbox) (ha : get_mail_from msg = some author)
    (hl : get_mail_cc_list cfg msg = some l) (m : Mailbox) (hm : m ∈ l) :
    ¬ mKeyEq m author := by
  rcases get_mail_cc_list_some cfg msg l hl with ⟨user, author2, hu, ha2, rfl⟩
  rw [ha] at ha2
  obtain rfl : author = author2 := Option.some_inj.mp ha2
  have hpm := List.of_mem_filter hm
  simpa [mailboxBeq, mKeyEq] using hpm

set_option maxRecDepth 40000 in
/-- C5 (witness): the author appears in To yet is absent from the result. -/
theorem c5_author_excluded_witness :
    mailboxBeq ⟨some "B", "b@x.com"⟩ ⟨some "A", "a@x.com"⟩ = false := by
  have h := c5_author_excluded ⟨some "U", some "u@x.com", none, none⟩
      ⟨[⟨some "A", "a@x.com"⟩], some [⟨some "A", "a@x.com"⟩, ⟨some "B", "b@x.com"⟩],
        none, some "s", some "D", some "id", some "b"⟩
      ⟨some "A", "a@x.com"⟩
      [⟨some "B", "b@x.com"⟩, ⟨some "U", "u@x.com"⟩] rfl (by decide)
      ⟨some "B", "b@x.com"⟩ (by decide)
  simpa [mailboxBeq, mKeyEq] using h

/-- C6: when the first text body contains a "---" line within the first
five lines, the reply quotes exactly the lines strictly before the first
such marker and stops, regardless of what and how much follows. -/
theorem c6_signature_cut (f : Mailbox) (r : List Mailbox)
    (tos ccs : Option (List Mailbox)) (subj mid : Option String) (date body : String)
    (pre post : List String) (hb : rustLines body = pre ++ "---" :: post)
    (hm : "---" ∉ pre) (hlen : pre.length < 5) :
    get_base_reply ⟨f :: r, tos, ccs, subj, some date, mid, some body⟩ =
      some ("On " ++ date ++ ", " ++ (f.name.getD f.email) ++ " wrote:\n" ++
        String.join ((pre.map fun l => "> " ++ l).map fun l => l ++ "\n")) := by
  have hq : quoteLines (rustLines body) 0 = pre.map fun l => "> " ++ l := by
    rw [hb]
    exact quoteLines_marker pre post 0 (fun l hl he => hm (he ▸ hl)) (by omega)
  simp [get_base_reply, get_mail_from, hq]

set_option maxRecDepth 40000 in
/-- C6 (witness): marker on line 3, five further lines after it. -/
theorem c6_signature_cut_witness :
    get_base_reply ⟨[⟨some "N", "n@x.com"⟩], none, none, none, some "D", none,
        some "a\nb\n---\nc\nd\ne\nf\ng"⟩ =
      some ("On " ++ "D" ++ ", " ++
        ((⟨some "N", "n@x.com"⟩ : Mailbox).name.getD
          (⟨some "N", "n@x.com"⟩ : Mailbox).email) ++ " wrote:\n" ++
        String.join (((["a", "b"].map fun l => "> " ++ l)).map fun l => l ++ "\n")) :=
  c6_signature_cut ⟨some "N", "n@x.com"⟩ [] none none none none "D"
    "a\nb\n---\nc\nd\ne\nf\ng" ["a", "b"] ["c", "d", "e", "f", "g"]
    (by decide) (by decide) (by decide)

/-- C7: the composed reply contains exactly the trailer lines whose flags
are set, in the fixed order Acked-by, Reviewed-by, Tested-by, each of the
form kind, colon, rendered self identity, and nothing else between the
quoted section and the closing blank line and signature. -/
theorem c7_trailers (args : Args) (user : Mailbox) (base : String) :
    composeReplyText args user base =
      base ++ "\n" ++ String.join ((trailerLines args user).map (fun l => l ++ "\n")) ++
        "\nThanks!\n" ++ signatureName user ++ "\n" ∧
    trailerLines args user =
      List.filterMap (fun p : Bool × String => if p.1 then some p.2 else none)
        [(args.acked, "Acked-by: " ++ mailboxDisplay user),
         (args.reviewed, "Reviewed-by: " ++ mailboxDisplay user),
         (args.tested, "Tested-by: " ++ mailboxDisplay user)] ∧
    (trailerLines args user).length =
      (if args.acked then 1 else 0) + (if args.reviewed then 1 else 0) +
        (if args.tested then 1 else 0) := by
  obtain ⟨ak, dr, rv, ts⟩ := args
  refine ⟨?_, ?_, ?_⟩ <;>
    cases ak <;> cases rv <;> cases ts <;>
      simp [composeReplyText, trailerLines, String.join, List.filterMap,
        String.append_assoc, String.append_empty, String.empty_append]

/-- C8: with the dry-run flag set, equal inputs (flags, configuration,
filesystem view, interpolation, current time, parsed message) give
byte-identical output and the transport is never invoked. -/
theorem c8_dry_run_deterministic (a a2 : Args) (c c2 : GitCfg) (pe pe2 : String → Bool)
    (itp itp2 : String → String) (now now2 : String) (m m2 : ParsedMessage)
    (ha : a = a2) (hc : c = c2) (hp : pe = pe2) (hi : itp = itp2) (hn : now = now2)
    (hm : m = m2) (hdry : a.dry = true) :
    mainModel a c pe itp now m = mainModel a2 c2 pe2 itp2 now2 m2 ∧
    (mainModel a c pe itp now m).isSent = false := by
  subst ha hc hp hi hn hm
  refine ⟨rfl, ?_⟩
  unfold mainModel
  cases hcf : composeFull a c m now with
  | none => rfl
  | some eml => simp [hdry, MainResult.isSent]

set_option maxRecDepth 40000 in
/-- C8 (witness). -/
theorem c8_dry_run_deterministic_witness :
    mainModel ⟨false, true, false, false⟩ ⟨some "U", some "u@x.com", none, none⟩
        (fun _ => false) (fun p => p) "NOW"
        ⟨[⟨some "A", "a@x.com"⟩], none, none, some "s", some "D", some "id", some "b"⟩ =
      mainModel ⟨false, true, false, false⟩ ⟨some "U", some "u@x.com", none, none⟩
        (fun _ => false) (fun p => p) "NOW"
        ⟨[⟨some "A", "a@x.com"⟩], none, none, some "s", some "D", some "id", some "b"⟩ ∧
    (mainModel ⟨false, true, false, false⟩ ⟨some "U", some "u@x.com", none, none⟩
        (fun _ => false) (fun p => p) "NOW"
        ⟨[⟨some "A", "a@x.com"⟩], none, none, some "s", some "D", some "id",
          some "b"⟩).isSent = false :=
  c8_dry_run_deterministic _ _ _ _ _ _ _ _ _ _ _ _ rfl rfl rfl rfl rfl rfl rfl

/-- Helper, on the already-validated view: the author extraction, the base
reply, the recipient list and the whole run depend on the From list only
through its first element. -/
theorem mainModel_from_tail_invariant (a : Args) (cfg : GitCfg) (pe : String → Bool)
    (itp : String → String) (now : String) (f : Mailbox) (r r2 : List Mailbox)
    (tos ccs : Option (List Mailbox)) (subj date mid body : Option String) :
    get_mail_from ⟨f :: r, tos, ccs, subj, date, mid, body⟩ = some f ∧
    get_base_reply ⟨f :: r, tos, ccs, subj, date, mid, body⟩ =
      get_base_reply ⟨f :: r2, tos, ccs, subj, date, mid, body⟩ ∧
    get_mail_cc_list cfg ⟨f :: r, tos, ccs, subj, date, mid, body⟩ =
      get_mail_cc_list cfg ⟨f :: r2, tos, ccs, subj, date, mid, body⟩ ∧
    mainModel a cfg pe itp now ⟨f :: r, tos, ccs, subj, date, mid, body⟩ =
      mainModel a cfg pe itp now ⟨f :: r2, tos, ccs, subj, date, mid, body⟩ :=
  ⟨rfl, rfl, rfl, rfl⟩

/-- C10: a present but empty first text body yields a quoted section that
is exactly the attribution line, with no quoted lines and no truncation
marker. -/
theorem c10_empty_body (f : Mailbox) (r : List Mailbox) (tos ccs : Option (List Mailbox))
    (subj mid : Option String) (date : String) :
    get_base_reply ⟨f :: r, tos, ccs, subj, some date, mid, some ""⟩ =
      some ("On " ++ date ++ ", " ++ (f.name.getD f.email) ++ " wrote:\n") := by
  have h0 : rustLines "" = [] := by decide
  simp [get_base_reply, get_mail_from, h0, quoteLines, String.join, String.append_empty]

set_option maxRecDepth 40000 in
/-- C9 (counterexample): the tail of the From list is not ignored
entirely: with a dry run on a well-formed message, replacing the empty
From tail by one extra mailbox whose address is missing turns the run
from a printed reply into an aborted run, because mailbox_from_addr
unwraps every From entry before index 0 is taken. -/
theorem c9_counterexample :
    mainModelRaw ⟨false, true, false, false⟩ ⟨some "U", some "u@x.com", none, none⟩
        (fun _ => false) (fun p => p) (fun _ => true) "NOW"
        ⟨[⟨some "A", some "a@x.com"⟩, ⟨some "X", none⟩], none, none,
          some "s", some "D", some "id", some "b"⟩ = MainResult.fail ∧
    mainModelRaw ⟨false, true, false, false⟩ ⟨some "U", some "u@x.com", none, none⟩
        (fun _ => false) (fun p => p) (fun _ => true) "NOW"
        ⟨[⟨some "A", some "a@x.com"⟩], none, none,
          some "s", some "D", some "id", some "b"⟩ =
      MainResult.printed
        ("Date: NOW\r\nFrom: U <u@x.com>\r\nTo: A <a@x.com>\r\nSubject: Re: s\r\n" ++
          "In-Reply-To: <id>\r\nReferences: <id>\r\nCc: U <u@x.com>\r\n\r\n" ++
          "On D, A wrote:\n> b\n\n\nThanks!\nU\n") :=
  ⟨by decide, by decide⟩

/-- C9 (amended): only the first From mailbox is used as the author, for
the reply target, the attribution line and the author-exclusion filter;
every later From mailbox is still converted, its address unwrapped and
validated, so a malformed one aborts the run, but replacing a
well-formed tail by any other well-formed tail changes nothing in the
entire run. -/
theorem c9_from_tail_values_ignored (a : Args) (cfg : GitCfg) (pe : String → Bool)
    (itp : String → String) (av : String → Bool) (now : String)
    (fa : Addr) (r r2 : List Addr) (ml ml2 : List Mailbox)
    (hr : mailbox_from_address av r = some ml)
    (hr2 : mailbox_from_address av r2 = some ml2)
    (tos ccs : Option (List Addr)) (subj date mid body : Option String) :
    get_mail_from_raw av (fa :: r) = mailbox_from_addr av fa ∧
    mainModelRaw a cfg pe itp av now ⟨fa :: r, tos, ccs, subj, date, mid, body⟩ =
      mainModelRaw a cfg pe itp av now ⟨fa :: r2, tos, ccs, subj, date, mid, body⟩ := by
  cases hfa : mailbox_from_addr av fa with
  | none =>
    constructor
    · simp [get_mail_from_raw, mailbox_from_address, hfa]
    · simp [mainModelRaw, mailbox_from_address, hfa]
  | some m =>
    constructor
    · simp [get_mail_from_raw, mailbox_from_address, hfa, hr]
    · simp only [mainModelRaw, mailbox_from_address, hfa, hr, hr2]
      cases hto : convertOptList av tos with
      | none => rfl
      | some tl =>
        cases hcc : convertOptList av ccs with
        | none => rfl
        | some cl =>
          exact mainModel_from_tail_invariant a cfg pe itp now m ml ml2 tl cl
            subj date mid body |>.2.2.2

set_option maxRecDepth 40000 in
/-- C9 (amended, witness): a concrete well-formed tail against the empty
tail. -/
theorem c9_from_tail_values_ignored_witness :
    get_mail_from_raw (fun _ => true)
        [⟨some "A", some "a@x.com"⟩, ⟨some "B", some "b@x.com"⟩] =
      mailbox_from_addr (fun _ => true) ⟨some "A", some "a@x.com"⟩ ∧
    mainModelRaw ⟨false, true, false, false⟩ ⟨some "U", some "u@x.com", none, none⟩
        (fun _ => false) (fun p => p) (fun _ => true) "NOW"
        ⟨[⟨some "A", some "a@x.com"⟩, ⟨some "B", some "b@x.com"⟩], none, none,
          some "s", some "D", some "id", some "b"⟩ =
      mainModelRaw ⟨false, true, false, false⟩ ⟨some "U", some "u@x.com", none, none⟩
        (fun _ => false) (fun p => p) (fun _ => true) "NOW"
        ⟨[⟨some "A", some "a@x.com"⟩], none, none,
          some "s", some "D", some "id", some "b"⟩ :=
  c9_from_tail_values_ignored ⟨false, true, false, false⟩
    ⟨some "U", some "u@x.com", none, none⟩ (fun _ => false) (fun p => p)
    (fun _ => true) "NOW" ⟨some "A", some "a@x.com"⟩
    [⟨some "B", some "b@x.com"⟩] [] [⟨some "B", "b@x.com"⟩] []
    (by decide) (by decide) none none (some "s") (some "D") (some "id") (some "b")
